import Mathlib

/-!
Shallow embedding of `src/message.js` (the `Message` class of a Slack bot
framework): conversation-key derivation, conversation routing (continuation
registration and resolution), message classification (mentions), mention/link
parsing, and outbound dispatch (`say`, `respond`, `_processInput`).

JavaScript strings are modelled as Lean `String` (lists of `Char`); optional /
possibly-`undefined` fields as `Option`; JS truthiness of a string value `s`
is `s ≠ ""`, of an optional value `none` is false.  `Math.random()` is
modelled by a rational parameter `q` with `0 ≤ q < 1`.  Machine time
(`Date.now()`) is a natural-number parameter `now` in milliseconds.
-/

namespace BoltMsg

/-- `body.event` of a platform event: its inner `type` and `text`. -/
structure InnerEvent where
  type : String
  text : String
deriving DecidableEq

/-- The `body` payload: only the `event` field is read by this core. -/
structure EventBody where
  event : Option InnerEvent
deriving DecidableEq

/-- The `meta` record of routing-relevant identifiers. -/
structure Meta where
  team_id : String
  channel_id : String
  user_id : Option String
  bot_id : Option String
  bot_user_id : String
  bot_token : Option String
  app_token : Option String
deriving DecidableEq

/-- A `Message`: `type` of the envelope, `body`, `meta` (constructor args). -/
structure MessageData where
  type : String
  body : EventBody
  meta : Meta
deriving DecidableEq

/-- JS `a || b` on two optional strings: `a` wins when it is truthy
(present and non-empty), otherwise `b`. -/
def jsOr (a b : Option String) : Option String :=
  match a with
  | some s => if s = "" then b else some s
  | none => b

/-- The actor component of the conversation key:
`meta.user_id || meta.bot_id`, rendered as the empty string when absent
(as `Array.prototype.join` renders `undefined`). -/
def actorId (meta : Meta) : String :=
  match jsOr meta.user_id meta.bot_id with
  | some s => s
  | none => ""

/-- `this.conversation_id = [meta.team_id, meta.channel_id,
meta.user_id || meta.bot_id].join('::')` from the constructor. -/
def MessageData.conversation_id (m : MessageData) : String :=
  m.meta.team_id ++ "::" ++ m.meta.channel_id ++ "::" ++ actorId m.meta

/-- `isMessage()`: the envelope type is `event`, `body.event` exists and its
inner type is `message`. -/
def MessageData.isMessage (m : MessageData) : Bool :=
  m.type == "event" &&
    (match m.body.event with
     | some ev => ev.type == "message"
     | none => false)

/-- The text of the inner event (only consulted under `isMessage`). -/
def eventText (m : MessageData) : String :=
  match m.body.event with
  | some ev => ev.text
  | none => ""

/-- The bot's mention token `<@botUserId>` interpolated into the regexes of
`isDirectMention`, `isMention` and `stripDirectMention`. -/
def mentionToken (m : MessageData) : String :=
  "<@" ++ m.meta.bot_user_id ++ ">"

/-- ASCII lowercasing of a string, modelling the `i` regex flag. -/
def lowerStr (s : String) : String :=
  String.mk (s.data.map Char.toLower)

/-- Substring test on character lists: does `pat` occur contiguously in the
second list?  Models `RegExp.test` of a literal pattern / `String.includes`. -/
def containsSub (pat : List Char) : List Char → Bool
  | [] => pat.isEmpty
  | c :: t => pat.isPrefixOf (c :: t) || containsSub pat t

/-- `isDirectMention()`: a message whose text matches `^<@botUserId>` with
the case-insensitive flag. -/
def MessageData.isDirectMention (m : MessageData) : Bool :=
  m.isMessage && (lowerStr (mentionToken m)).data.isPrefixOf (lowerStr (eventText m)).data

/-- `isMention()`: a message whose text matches `<@botUserId>` anywhere,
case-insensitively. -/
def MessageData.isMention (m : MessageData) : Bool :=
  m.isMessage && containsSub (lowerStr (mentionToken m)).data (lowerStr (eventText m)).data

/-- A Pending Continuation as stored by `route`:
`{ fnKey, state, expiration }` (expiration in ms since epoch). -/
structure ConvoRecord (St : Type) where
  fnKey : String
  state : St
  expiration : Nat
deriving DecidableEq

/-- One operation against the external conversation store. -/
inductive StoreOp (St : Type) where
  | set (key : String) (value : ConvoRecord St)
  | del (key : String)
deriving DecidableEq

/-- The conversation store, as a key/value map. -/
def ConvoStore (St : Type) : Type := String → Option (ConvoRecord St)

/-- Apply one store operation (per-key atomic replace / delete). -/
def applyOp (store : ConvoStore St) : StoreOp St → ConvoStore St
  | .set k v => fun x => if x = k then some v else store x
  | .del k => fun x => if x = k then none else store x

/-- Apply a sequence of store operations in order. -/
def applyOps (store : ConvoStore St) (ops : List (StoreOp St)) : ConvoStore St :=
  ops.foldl applyOp store

/-- The `secondsToExpire` fallback of `route`: JS
`if (!secondsToExpire) secondsToExpire = hour` with `hour = 60 * 60`,
so an omitted argument or the falsy number `0` becomes `3600`. -/
def ttlOrDefault (secondsToExpire : Option Nat) : Nat :=
  match secondsToExpire with
  | none => 3600
  | some 0 => 3600
  | some n => n

/-- The store operations emitted by `route(fnKey, state, secondsToExpire)`:
JS `if (!state) state = {}` replaces an omitted state by the empty object
(the `Inhabited` default here), then one
`convoStore.set(this.conversation_id, { fnKey, state, expiration })` with
`expiration = Date.now() + secondsToExpire * 1000`. -/
def MessageData.routeOps [Inhabited St] (m : MessageData) (now : Nat) (fnKey : String)
    (state : Option St) (secondsToExpire : Option Nat) : List (StoreOp St) :=
  [StoreOp.set m.conversation_id
    ⟨fnKey, state.getD default, now + ttlOrDefault secondsToExpire * 1000⟩]

/-- The conversation store after `route(fnKey, state, secondsToExpire)`. -/
def MessageData.route [Inhabited St] (m : MessageData) (store : ConvoStore St) (now : Nat)
    (fnKey : String) (state : Option St) (secondsToExpire : Option Nat) : ConvoStore St :=
  applyOps store (m.routeOps now fnKey state secondsToExpire)

/-- The store operations emitted by `cancel()`:
one `convoStore.del(this.conversation_id)`. -/
def MessageData.cancelOps (m : MessageData) : List (StoreOp St) :=
  [StoreOp.del m.conversation_id]

/-- The route registry attached through the SlackApp: `getRoute(fnKey)`
returns the handler registered under `fnKey`, or nothing. -/
def Registry (St R : Type) : Type := String → Option (MessageData → St → R)

/-- `attachOverrideRoute(fnKey, state)`: looks up `fnKey` in the registry; if
a handler `fn` is found, sets `this.override = (msg) => fn(msg, state)`;
always returns `this`.  The result pairs the returned message object with the
`override` field it ends up with (`none` when no handler was attached). -/
def MessageData.attachOverrideRoute (m : MessageData) (registry : Registry St R)
    (fnKey : String) (state : St) : MessageData × Option (MessageData → R) :=
  match registry fnKey with
  | some fn => (m, some (fun msg => fn msg state))
  | none => (m, none)

/-- JS line terminators, which `.` in a regex without the dot-all flag does
not match. -/
def jsLineTerm (c : Char) : Bool :=
  c = '\n' || c = '\r' || c = '\u2028' || c = '\u2029'

/-- Whitespace stripped by `String.prototype.trim` (the ASCII part plus
no-break space; the exotic Unicode spaces are not needed by this model). -/
def jsTrimChar (c : Char) : Bool :=
  c = ' ' || c = '\t' || c = '\n' || c = '\r' ||
    c = '\x0b' || c = '\x0c' || c = '\u00a0'

/-- `trim()` on a character list: drop leading and trailing whitespace. -/
def trimList (l : List Char) : List Char :=
  ((l.dropWhile jsTrimChar).reverse.dropWhile jsTrimChar).reverse

/-- Drop one leading colon, modelling the greedy `:{0,1}` of the
`stripDirectMention` regex. -/
def dropLeadColon : List Char → List Char
  | ':' :: r => r
  | r => r

/-- `stripDirectMention()`: on a message it matches the text against
`^<@botUserId>:{0,1}(.*)` (case-sensitive, no dot-all flag: the capture
stops at the first line terminator); on a match it returns the trimmed
capture, otherwise the text unchanged; on a non-message it returns `""`. -/
def MessageData.stripDirectMention (m : MessageData) : String :=
  if m.isMessage then
    if (mentionToken m).data.isPrefixOf (eventText m).data then
      String.mk (trimList
        ((dropLeadColon ((eventText m).data.drop (mentionToken m).data.length)).takeWhile
          (fun c => !jsLineTerm c)))
    else eventText m
  else ""

/-- The character class `[^@^>]` of the `linksMentioned` regex: any
character other than `@`, `^`, `>`. -/
def linkChar (c : Char) : Bool :=
  !(c == '@' || c == '^' || c == '>')

/-- The global-exec loop of `linksMentioned` over `<([^@^>]+)>`: at each
`<`, a maximal non-empty run of `linkChar`s closed by `>` is a match (the
class excludes `>`, so the greedy run admits no backtracking); on a match
the scan resumes after the `>`, on a failure it advances one character; the
captured run is truncated at the first `|` (`.split('|')[0]`).  Structural
recursion on a fuel bounded below by the scanned length. -/
def scanLinksGo : Nat → List Char → List (List Char)
  | 0, _ => []
  | _ + 1, [] => []
  | fuel + 1, c :: rest =>
    if c = '<' then
      match rest.dropWhile linkChar with
      | '>' :: rest3 =>
        if (rest.takeWhile linkChar).isEmpty then scanLinksGo fuel rest
        else ((rest.takeWhile linkChar).takeWhile (fun x => x != '|')) :: scanLinksGo fuel rest3
      | _ => scanLinksGo fuel rest
    else scanLinksGo fuel rest

/-- The link scan over a whole text.  The fuel `l.length` never runs out:
every step of the exec loop consumes at least one character. -/
def scanLinks (l : List Char) : List (List Char) :=
  scanLinksGo l.length l

/-- `linksMentioned()`: run the link scan over the message text; empty for
non-messages. -/
def MessageData.linksMentioned (m : MessageData) : List String :=
  if m.isMessage then (scanLinks (eventText m).data).map String.mk else []

/-- `[A-Za-z0-9]` of the `channelsMentioned` regex. -/
def alnumChar (c : Char) : Bool :=
  ('A' ≤ c && c ≤ 'Z') || ('a' ≤ c && c ≤ 'z') || ('0' ≤ c && c ≤ '9')

/-- The global-exec loop of `channelsMentioned` over `<#(C[A-Za-z0-9]+)>`
(via `_regexMentions`): `<#C`, then a maximal non-empty alphanumeric run
closed by `>`; the capture is `C` followed by the run. -/
def scanChannelsGo : Nat → List Char → List (List Char)
  | 0, _ => []
  | _ + 1, [] => []
  | fuel + 1, c :: rest =>
    if c = '<' then
      match rest with
      | '#' :: 'C' :: rest2 =>
        match rest2.dropWhile alnumChar with
        | '>' :: rest3 =>
          if (rest2.takeWhile alnumChar).isEmpty then scanChannelsGo fuel rest
          else ('C' :: rest2.takeWhile alnumChar) :: scanChannelsGo fuel rest3
        | _ => scanChannelsGo fuel rest
      | _ => scanChannelsGo fuel rest
    else scanChannelsGo fuel rest

/-- The channel-mention scan over a whole text. -/
def scanChannels (l : List Char) : List (List Char) :=
  scanChannelsGo l.length l

/-- `channelsMentioned()`: channel ids mentioned in the message text. -/
def MessageData.channelsMentioned (m : MessageData) : List String :=
  if m.isMessage then (scanChannels (eventText m).data).map String.mk else []

/-- A response body as inspected by the `respond` callback: either a JSON
object — of which only the `error` field (optional string) and the
transport-internal `ok` field are inspected, all other fields opaque in
`rest` — or a plain string. -/
inductive RespBody (α : Type) where
  | obj (error : Option String) (ok : Option Bool) (rest : α)
  | str (s : String)
deriving DecidableEq

/-- The outcome handed to the user callback of `respond`. -/
inductive CbResult (ε α : Type) where
  | transport (e : ε)
  | err (msg : String)
  | ok (body : RespBody α)
deriving DecidableEq

/-- The rate-limit notice text matched by `body.includes(rateLimit)`. -/
def rateLimitText : String :=
  "You are sending too many requests. Please relax."

/-- JS truthiness of `body.error`: the field exists on an object body and
holds a non-empty string. -/
def bodyErrorTruthy : RespBody α → Option String
  | .obj (some e) _ _ => if e = "" then none else some e
  | _ => none

/-- `delete body.ok`: removes the `ok` field of an object body; a no-op on
a string body. -/
def deleteOkField : RespBody α → RespBody α
  | .obj e _ r => .obj e none r
  | .str s => .str s

/-- The callback chain of `respond` (lines 182–196): transport error as-is;
else a truthy `body.error` wrapped in an `Error`; else a string body
containing the rate-limit notice becomes `Error('rate_limit')`; else
success with `ok` deleted. -/
def respondCallback (err : Option ε) (body : RespBody α) : CbResult ε α :=
  match err with
  | some e => .transport e
  | none =>
    match bodyErrorTruthy body with
    | some msg => .err msg
    | none =>
      match body with
      | .str s =>
        if containsSub rateLimitText.data s.data then .err "rate_limit"
        else .ok (deleteOkField (.str s))
      | .obj e o r => .ok (deleteOkField (.obj e o r))

/-- A `chat.postMessage` payload: the `text`, `channel` and `token` fields
this core reads or writes, plus an opaque bag `rest` of any other fields. -/
structure PostPayload (α : Type) where
  text : Option String
  channel : Option String
  token : Option String
  rest : Option α
deriving DecidableEq

/-- A value passed as `input` to `say` / `respond` / `_processInput`:
a plain string, a payload object, an array of such values, or `undefined`. -/
inductive SayInput (α : Type) where
  | str (s : String)
  | obj (p : PostPayload α)
  | arr (xs : List (SayInput α))
  | undef

/-- The array index chosen by `Math.floor(Math.random() * input.length)`
when `Math.random()` returned `q`. -/
def jsArrayIndex (q : ℚ) (n : Nat) : Nat :=
  ⌊q * (n : ℚ)⌋₊

/-- The string-wrapping half of `_processInput`: a plain string `s` becomes
`{ text: s }`; anything else is returned unchanged. -/
def wrapString : SayInput α → SayInput α
  | .str s => .obj ⟨some s, none, none, none⟩
  | v => v

/-- `_processInput(input)`: if the input is an array, replace it by the
element at the random index (JS indexing yields `undefined` out of range);
then wrap a plain string as `{ text: input }`. -/
def processInput (q : ℚ) : SayInput α → SayInput α
  | .arr xs => wrapString ((xs.get? (jsArrayIndex q xs.length)).getD .undef)
  | v => wrapString v

/-- The payload posted by `say(input)`:
`Object.assign({}, input, { token: meta.bot_token || meta.app_token,
channel: meta.channel_id })` over the normalized input.  (Assigning from a
non-object normalized input contributes no `text`/`rest` fields.) -/
def MessageData.say (m : MessageData) (q : ℚ) (input : SayInput α) : PostPayload α :=
  let base : PostPayload α :=
    match processInput q input with
    | .obj p => p
    | _ => ⟨none, none, none, none⟩
  ⟨base.text, some m.meta.channel_id, jsOr m.meta.bot_token m.meta.app_token, base.rest⟩

/-- A concrete message event fixture: an `event` envelope holding a
`message` with the given text, in team `T1`, channel `C1`, from user `U1`,
with the given bot user id and no tokens. -/
def mkMsg (text botUid : String) : MessageData :=
  ⟨"event", ⟨some ⟨"message", text⟩⟩, ⟨"T1", "C1", some "U1", none, botUid, none, none⟩⟩

/-- A concrete message fixture whose meta carries both tokens. -/
def msgTok : MessageData :=
  ⟨"event", ⟨some ⟨"message", "hi"⟩⟩,
    ⟨"T1", "C1", some "U1", none, "U123", some "BTOK", some "ATOK"⟩⟩

/-- A concrete one-entry route registry used as a witness input. -/
def regW : Registry Nat Nat :=
  fun k => if k = "next" then some (fun _ st => st + 1) else none

/-- A string free of colons: the well-formedness assumption under which the
`::`-joined conversation key is injective (Slack ids are alphanumeric). -/
def colonFree (s : String) : Prop :=
  ∀ c ∈ s.data, c ≠ ':'

instance (s : String) : Decidable (colonFree s) :=
  inferInstanceAs (Decidable (∀ c ∈ s.data, c ≠ ':'))

/-! ## Helper lemmas -/

theorem isPrefixOf_iff_exists (l₁ l₂ : List Char) :
    l₁.isPrefixOf l₂ = true ↔ ∃ t, l₁ ++ t = l₂ := by
  induction l₁ generalizing l₂ with
  | nil => simp [List.isPrefixOf]
  | cons a t₁ ih =>
    cases l₂ with
    | nil => simp [List.isPrefixOf]
    | cons b t₂ =>
      simp only [List.isPrefixOf, Bool.and_eq_true, beq_iff_eq, ih, List.cons_append,
        List.cons.injEq]
      constructor
      · rintro ⟨rfl, u, rfl⟩
        exact ⟨u, rfl, rfl⟩
      · rintro ⟨u, rfl, rfl⟩
        exact ⟨rfl, u, rfl⟩

theorem containsSub_iff (pat l : List Char) :
    containsSub pat l = true ↔ ∃ s t, s ++ pat ++ t = l := by
  induction l with
  | nil =>
    simp only [containsSub, List.isEmpty_iff]
    constructor
    · rintro rfl
      exact ⟨[], [], rfl⟩
    · rintro ⟨s, t, h⟩
      have := congrArg List.length h
      simp at this
      exact this.2.1
  | cons c t ih =>
    simp only [containsSub, Bool.or_eq_true, isPrefixOf_iff_exists, ih]
    constructor
    · rintro (⟨u, hu⟩ | ⟨s, u, hu⟩)
      · exact ⟨[], u, by simpa using hu⟩
      · exact ⟨c :: s, u, by simpa using hu⟩
    · rintro ⟨s, u, hu⟩
      cases s with
      | nil =>
        left
        exact ⟨u, by simpa using hu⟩
      | cons d s' =>
        right
        simp only [List.cons_append, List.cons.injEq] at hu
        exact ⟨s', u, by simp [hu.2]⟩

theorem append_colon_inj (l₁ : List Char) :
    ∀ (l₂ : List Char) (r₁ r₂ : List Char),
      (∀ c ∈ l₁, c ≠ ':') → (∀ c ∈ l₂, c ≠ ':') →
      l₁ ++ ':' :: r₁ = l₂ ++ ':' :: r₂ → l₁ = l₂ ∧ r₁ = r₂ := by
  induction l₁ with
  | nil =>
    intro l₂ r₁ r₂ h₁ h₂ heq
    cases l₂ with
    | nil => simpa using heq
    | cons b t₂ =>
      simp only [List.nil_append, List.cons_append, List.cons.injEq] at heq
      exact absurd heq.1.symm (h₂ b (by simp))
  | cons a t₁ ih =>
    intro l₂ r₁ r₂ h₁ h₂ heq
    cases l₂ with
    | nil =>
      simp only [List.cons_append, List.nil_append, List.cons.injEq] at heq
      exact absurd heq.1 (h₁ a (by simp))
    | cons b t₂ =>
      simp only [List.cons_append, List.cons.injEq] at heq
      obtain ⟨hab, hrest⟩ := heq
      obtain ⟨ht, hr⟩ := ih t₂ r₁ r₂ (fun c hc => h₁ c (List.mem_cons_of_mem a hc))
        (fun c hc => h₂ c (List.mem_cons_of_mem b hc)) hrest
      exact ⟨by rw [hab, ht], hr⟩

theorem conversation_id_data (m : MessageData) :
    m.conversation_id.data =
      m.meta.team_id.data ++
        ':' :: ':' :: (m.meta.channel_id.data ++ ':' :: ':' :: (actorId m.meta).data) := by
  show (m.meta.team_id ++ "::" ++ m.meta.channel_id ++ "::" ++ actorId m.meta).data = _
  simp only [String.data_append, List.append_assoc]
  rfl

/-! ## Claim theorems -/

/-- C4 (confirmed): the conversation key is a pure deterministic function of
(team id, channel id, actor id), where the actor is the user id if present
(truthy) else the bot id, and on well-formed (colon-free) identifiers it is
injective: two keys are equal exactly when team, channel and actor all
agree.  The left-to-right direction is injectivity, the right-to-left
direction is determinism. -/
theorem conversation_key_deterministic_injective (m₁ m₂ : MessageData)
    (h₁t : colonFree m₁.meta.team_id) (h₁c : colonFree m₁.meta.channel_id)
    (h₂t : colonFree m₂.meta.team_id) (h₂c : colonFree m₂.meta.channel_id) :
    m₁.conversation_id = m₂.conversation_id ↔
      m₁.meta.team_id = m₂.meta.team_id ∧
      m₁.meta.channel_id = m₂.meta.channel_id ∧
      actorId m₁.meta = actorId m₂.meta := by
  constructor
  · intro h
    have hd := congrArg String.data h
    rw [conversation_id_data, conversation_id_data] at hd
    obtain ⟨ht, hrest⟩ := append_colon_inj _ _ _ _ h₁t h₂t hd
    simp only [List.cons.injEq, true_and] at hrest
    obtain ⟨hc, hrest₂⟩ := append_colon_inj _ _ _ _ h₁c h₂c hrest
    simp only [List.cons.injEq, true_and] at hrest₂
    exact ⟨String.ext ht, String.ext hc, String.ext hrest₂⟩
  · rintro ⟨h₁, h₂, h₃⟩
    show m₁.meta.team_id ++ "::" ++ m₁.meta.channel_id ++ "::" ++ actorId m₁.meta = _
    rw [h₁, h₂, h₃]
    rfl

/-- C4 witness: the key equivalence instantiated at two concrete
well-formed metas. -/
theorem conversation_key_witness :
    (mkMsg "hello" "U123").conversation_id = msgTok.conversation_id ↔
      (mkMsg "hello" "U123").meta.team_id = msgTok.meta.team_id ∧
      (mkMsg "hello" "U123").meta.channel_id = msgTok.meta.channel_id ∧
      actorId (mkMsg "hello" "U123").meta = actorId msgTok.meta :=
  conversation_key_deterministic_injective _ _ (by decide) (by decide) (by decide) (by decide)

/-- C3 (confirmed): when the stored handler key has no entry in the route
registry, `attachOverrideRoute` is a silent no-op: it is a total function
(no throw, no error report), produces no override callable, and still
returns the message object unchanged. -/
theorem attach_override_missing {St R : Type} (m : MessageData) (registry : Registry St R)
    (fnKey : String) (st : St) (h : registry fnKey = none) :
    m.attachOverrideRoute registry fnKey st = (m, none) := by
  unfold MessageData.attachOverrideRoute
  rw [h]

/-- C3 witness: the empty registry at a concrete message. -/
theorem attach_override_missing_witness :
    (mkMsg "x" "U1").attachOverrideRoute
        (fun _ => none : Registry Nat Nat) "gone" (0 : Nat) =
      (mkMsg "x" "U1", none) :=
  attach_override_missing _ _ _ _ rfl

/-- C2 (confirmed): `route(fnKey, state, secondsToExpire)` makes exactly one
store write, under the event's conversation key, of the record
`{fnKey, state, now + ttl*1000}` where the ttl is `secondsToExpire` unless
that is omitted or falsy (`0`), in which case it is 3600; the write
overwrites whatever was at that key and touches no other key. -/
theorem route_single_write {St : Type} [Inhabited St] (m : MessageData)
    (store : ConvoStore St) (now : Nat) (fnKey : String) (st : St) (ttl : Option Nat) :
    m.routeOps now fnKey (some st) ttl =
      [StoreOp.set m.conversation_id ⟨fnKey, st, now + ttlOrDefault ttl * 1000⟩] ∧
    ttlOrDefault none = 3600 ∧
    ttlOrDefault (some 0) = 3600 ∧
    (∀ n : Nat, n ≠ 0 → ttlOrDefault (some n) = n) ∧
    m.route store now fnKey (some st) ttl m.conversation_id =
      some ⟨fnKey, st, now + ttlOrDefault ttl * 1000⟩ ∧
    (∀ k, k ≠ m.conversation_id → m.route store now fnKey (some st) ttl k = store k) := by
  refine ⟨rfl, rfl, rfl, ?_, ?_, ?_⟩
  · intro n hn
    cases n with
    | zero => exact absurd rfl hn
    | succ k => rfl
  · show applyOps store _ _ = _
    simp [applyOps, MessageData.routeOps, applyOp]
  · intro k hk
    show applyOps store _ k = store k
    simp [applyOps, MessageData.routeOps, applyOp, hk]

/-- C2 witness: a concrete registration, its stored record, the untouched
foreign key, and a non-falsy ttl kept as given. -/
theorem route_single_write_witness :
    (mkMsg "x" "U1").route (fun _ => none) 5 "next" (some (7 : Nat)) none
        (mkMsg "x" "U1").conversation_id =
      some ⟨"next", 7, 5 + ttlOrDefault none * 1000⟩ ∧
    (mkMsg "x" "U1").route (fun _ => none) 5 "next" (some (7 : Nat)) none "other" = none ∧
    ttlOrDefault (some 60) = 60 := by
  obtain ⟨h₁, h₂, h₃, h₄, h₅, h₆⟩ :=
    route_single_write (mkMsg "x" "U1") (fun _ => (none : Option (ConvoRecord Nat))) 5 "next" 7 none
  refine ⟨h₅, ?_, h₄ 60 (by decide)⟩
  simpa using h₆ "other" (by decide)

/-- C1 (confirmed): after `route(fnKey, state, ttl)` stores the continuation
under the conversation key, the stored record round-trips the handler key
and the identical state, and—at any time before the stored expiry—resolving
it through `attachOverrideRoute` (given the key is registered) yields an
override callable that, on any new event `e`, computes exactly
`handler(e, state)`. -/
theorem continuation_roundtrip {St R : Type} [Inhabited St] (m e : MessageData)
    (store : ConvoStore St) (registry : Registry St R) (now t : Nat) (fnKey : String)
    (s : St) (ttl : Option Nat) (handler : MessageData → St → R) (rec : ConvoRecord St)
    (hreg : registry fnKey = some handler)
    (hlookup : m.route store now fnKey (some s) ttl m.conversation_id = some rec)
    (hfresh : t < rec.expiration) :
    rec.fnKey = fnKey ∧ rec.state = s ∧
    ∃ ov : MessageData → R,
      (m.attachOverrideRoute registry rec.fnKey rec.state).2 = some ov ∧
      ov e = handler e s := by
  have hstore : m.route store now fnKey (some s) ttl m.conversation_id =
      some ⟨fnKey, s, now + ttlOrDefault ttl * 1000⟩ := by
    show applyOps store _ _ = _
    simp [applyOps, MessageData.routeOps, applyOp]
  rw [hstore] at hlookup
  have hrec : rec = ⟨fnKey, s, now + ttlOrDefault ttl * 1000⟩ :=
    (Option.some.inj hlookup).symm
  subst hrec
  refine ⟨rfl, rfl, fun msg => handler msg s, ?_, rfl⟩
  unfold MessageData.attachOverrideRoute
  rw [hreg]

/-- C1 witness: a concrete registration in `regW`, resolved and invoked on a
fresh event; the handler receives the stored state 7 and returns 8. -/
theorem continuation_roundtrip_witness :
    (⟨"next", 7, 5 + ttlOrDefault none * 1000⟩ : ConvoRecord Nat).fnKey = "next" ∧
    (⟨"next", 7, 5 + ttlOrDefault none * 1000⟩ : ConvoRecord Nat).state = 7 ∧
    ∃ ov : MessageData → Nat,
      ((mkMsg "x" "U1").attachOverrideRoute regW
          (⟨"next", 7, 5 + ttlOrDefault none * 1000⟩ : ConvoRecord Nat).fnKey
          (⟨"next", 7, 5 + ttlOrDefault none * 1000⟩ : ConvoRecord Nat).state).2 = some ov ∧
      ov (mkMsg "y" "U1") = 8 :=
  continuation_roundtrip (mkMsg "x" "U1") (mkMsg "y" "U1") (fun _ => none) regW 5 0 "next" 7
    none (fun _ st => st + 1) ⟨"next", 7, 5 + ttlOrDefault none * 1000⟩ rfl rfl (by decide)

/-- C5 (confirmed): `isDirectMention` holds exactly on messages whose
(case-folded) text starts with the bot's mention token, anchored at
position zero; `isMention` holds exactly on messages whose text contains
the token anywhere; every direct mention is a mention; and with bot id
`U123`, `"<@U123> hello"` is a direct mention while `"hi <@U123>"` is a
mention but not a direct mention. -/
theorem mention_predicates (m : MessageData) :
    (m.isDirectMention = true ↔
      m.isMessage = true ∧
        ∃ t, (lowerStr (eventText m)).data = (lowerStr (mentionToken m)).data ++ t) ∧
    (m.isMention = true ↔
      m.isMessage = true ∧
        ∃ s t, (lowerStr (eventText m)).data = s ++ (lowerStr (mentionToken m)).data ++ t) ∧
    (m.isDirectMention = true → m.isMention = true) ∧
    (mkMsg "<@U123> hello" "U123").isDirectMention = true ∧
    (mkMsg "<@U123> hello" "U123").isMention = true ∧
    (mkMsg "hi <@U123>" "U123").isDirectMention = false ∧
    (mkMsg "hi <@U123>" "U123").isMention = true := by
  refine ⟨?_, ?_, ?_, by decide, by decide, by decide, by decide⟩
  · unfold MessageData.isDirectMention
    simp only [Bool.and_eq_true, isPrefixOf_iff_exists]
    constructor
    · rintro ⟨hm, t, ht⟩
      exact ⟨hm, t, ht.symm⟩
    · rintro ⟨hm, t, ht⟩
      exact ⟨hm, t, ht.symm⟩
  · unfold MessageData.isMention
    simp only [Bool.and_eq_true, containsSub_iff]
    constructor
    · rintro ⟨hm, s, t, h⟩
      exact ⟨hm, s, t, h.symm⟩
    · rintro ⟨hm, s, t, h⟩
      exact ⟨hm, s, t, h.symm⟩
  · intro h
    unfold MessageData.isDirectMention at h
    unfold MessageData.isMention
    simp only [Bool.and_eq_true, isPrefixOf_iff_exists] at h
    simp only [Bool.and_eq_true, containsSub_iff]
    obtain ⟨hm, t, ht⟩ := h
    exact ⟨hm, [], t, by simpa using ht⟩

/-- C5 witness: the direct-mention-implies-mention conjunct applied at the
concrete direct mention. -/
theorem mention_predicates_witness :
    (mkMsg "<@U123> hello!" "U123").isMention = true :=
  (mention_predicates (mkMsg "<@U123> hello!" "U123")).2.2.1 (by decide)

/-- C6 counterexample: with bot id `U123` the message text
`"<@U123> a\nb"` starts with the mention token, so the claim predicts the
trimmed remainder `"a\nb"`; the code returns `"a"` because the capture
`(.*)` of the non-dot-all regex stops at the line terminator. -/
theorem strip_direct_mention_cex :
    (mkMsg "<@U123> a\nb" "U123").isMessage = true ∧
    (mentionToken (mkMsg "<@U123> a\nb" "U123")).data.isPrefixOf
      (eventText (mkMsg "<@U123> a\nb" "U123")).data = true ∧
    (mkMsg "<@U123> a\nb" "U123").stripDirectMention = "a" ∧
    String.mk (trimList (dropLeadColon ((" a\nb" : String).data))) = "a\nb" ∧
    ("a" : String) ≠ "a\nb" := by
  exact ⟨by decide, by decide, by decide, by decide, by decide⟩

/-- C6 (amended): on a message whose text starts (case-sensitively) with the
bot's mention token, `stripDirectMention` removes the token and one optional
following colon, truncates the remainder at the first JS line terminator,
and trims surrounding whitespace; a message text not starting with the
token is returned unchanged; a non-message yields the empty string.  With
bot id `U123`, `"<@U123>: hi there"` yields `"hi there"` and
`"<@U999> hi"` is returned unchanged. -/
theorem strip_direct_mention_amended (m : MessageData) :
    (m.isMessage = false → m.stripDirectMention = "") ∧
    (∀ rest : List Char, m.isMessage = true →
      (eventText m).data = (mentionToken m).data ++ rest →
      m.stripDirectMention =
        String.mk (trimList ((dropLeadColon rest).takeWhile (fun c => !jsLineTerm c)))) ∧
    (m.isMessage = true →
      (mentionToken m).data.isPrefixOf (eventText m).data = false →
      m.stripDirectMention = eventText m) ∧
    (mkMsg "<@U123>: hi there" "U123").stripDirectMention = "hi there" ∧
    (mkMsg "<@U999> hi" "U123").stripDirectMention = "<@U999> hi" := by
  refine ⟨?_, ?_, ?_, by decide, by decide⟩
  · intro hm
    unfold MessageData.stripDirectMention
    simp [hm]
  · intro rest hm heq
    have hpre : (mentionToken m).data.isPrefixOf (eventText m).data = true :=
      (isPrefixOf_iff_exists _ _).mpr ⟨rest, heq.symm⟩
    unfold MessageData.stripDirectMention
    rw [heq]
    simp only [hm, if_true]
    rw [heq] at hpre
    simp only [hpre, if_true]
    rw [List.drop_left]
  · intro hm hnp
    unfold MessageData.stripDirectMention
    simp [hm, hnp]

/-- C6 witness: the token-and-colon removal branch applied at the concrete
text `"<@U123>: hi there"`. -/
theorem strip_direct_mention_witness :
    (mkMsg "<@U123>: hi there" "U123").stripDirectMention =
      String.mk (trimList
        ((dropLeadColon ((": hi there" : String).data)).takeWhile (fun c => !jsLineTerm c))) :=
  (strip_direct_mention_amended (mkMsg "<@U123>: hi there" "U123")).2.1
    (": hi there" : String).data (by decide) (by decide)

/-- C7 (confirmed): the callback outcome of `respond` follows exactly the
priority order (1) transport error as-is, (2) truthy `body.error` wrapped
in an `Error` (the JS `if (body.error)` test: the field present with a
non-empty value), (3) string body containing the rate-limit notice mapped
to the distinguished `Error('rate_limit')` — never the generic path, which
is unreachable for string bodies — and (4) otherwise success with the
transport-internal `ok` field removed; body `{error: "invalid_payload"}`
yields the error message `invalid_payload`. -/
theorem respond_error_priority {ε α : Type} (err : Option ε) (body : RespBody α) :
    (∀ e, err = some e → respondCallback err body = CbResult.transport e) ∧
    (∀ e ok r, err = none → body = RespBody.obj (some e) ok r → e ≠ "" →
      respondCallback err body = CbResult.err e) ∧
    (∀ s, err = none → body = RespBody.str s →
      containsSub rateLimitText.data s.data = true →
      respondCallback err body = CbResult.err "rate_limit") ∧
    (∀ e ok r, err = none → body = RespBody.obj e ok r → (e = none ∨ e = some "") →
      respondCallback err body = CbResult.ok (RespBody.obj e none r)) ∧
    (∀ s, err = none → body = RespBody.str s →
      containsSub rateLimitText.data s.data = false →
      respondCallback err body = CbResult.ok (RespBody.str s)) ∧
    respondCallback (none : Option Unit)
        (RespBody.obj (some "invalid_payload") (some true) (0 : Nat)) =
      CbResult.err "invalid_payload" := by
  refine ⟨?_, ?_, ?_, ?_, ?_, by decide⟩
  · rintro e rfl
    rfl
  · rintro e ok r rfl rfl hne
    simp [respondCallback, bodyErrorTruthy, hne]
  · rintro s rfl rfl hrl
    simp [respondCallback, bodyErrorTruthy, hrl]
  · rintro e ok r rfl rfl he
    rcases he with rfl | rfl
    · simp [respondCallback, bodyErrorTruthy, deleteOkField]
    · simp [respondCallback, bodyErrorTruthy, deleteOkField]
  · rintro s rfl rfl hrl
    simp [respondCallback, bodyErrorTruthy, deleteOkField, hrl]

/-- C7 witness: a plain-text body consisting of the rate-limit notice takes
the distinguished rate-limit branch. -/
theorem respond_error_priority_witness :
    respondCallback (none : Option Unit) (RespBody.str rateLimitText : RespBody Nat) =
      CbResult.err "rate_limit" :=
  (respond_error_priority none (RespBody.str rateLimitText : RespBody Nat)).2.2.1
    rateLimitText rfl rfl (by decide)

/-- Every character of every link extracted by the scan is admitted by the
regex class `[^@^>]`. -/
theorem scanLinksGo_linkChar (fuel : Nat) :
    ∀ l x, x ∈ scanLinksGo fuel l → ∀ c ∈ x, linkChar c = true := by
  induction fuel with
  | zero =>
    intro l x hx
    simp [scanLinksGo] at hx
  | succ f ih =>
    intro l x hx c hc
    match l with
    | [] => simp [scanLinksGo] at hx
    | d :: rest =>
      rw [scanLinksGo] at hx
      split at hx
      · split at hx
        · split at hx
          · exact ih rest x hx c hc
          · rcases List.mem_cons.mp hx with rfl | hx₂
            · have hc₂ : c ∈ rest.takeWhile linkChar :=
                (List.takeWhile_sublist _).subset hc
              exact List.mem_takeWhile_imp hc₂
            · exact ih _ x hx₂ c hc
        · exact ih rest x hx c hc
      · exact ih rest x hx c hc

/-- C8 counterexample: the text `"<#C123>"` is exactly one channel mention
(the code's own `channelsMentioned` extracts `C123` from it), yet
`linksMentioned` returns `["#C123"]`, not `[]`: the class `[^@^>]` does not
exclude `#`. -/
theorem links_mentioned_cex :
    (mkMsg "<#C123>" "U1").channelsMentioned = ["C123"] ∧
    (mkMsg "<#C123>" "U1").linksMentioned = ["#C123"] ∧
    (mkMsg "<#C123>" "U1").linksMentioned ≠ [] := by
  exact ⟨by decide, by decide, by decide⟩

/-- C8 (amended): `linksMentioned` returns the bracketed references of the
text in left-to-right order with any `|label` suffix stripped, excluding
any reference containing `@` (user mentions) or `^` (subteam mentions) —
every character of every returned link is admitted by `[^@^>]` — but not
excluding channel mentions, which appear with their `#` prefix; e.g.
`"<http://a.co|A> <http://b.co>"` yields `["http://a.co", "http://b.co"]`
and a leading user mention is skipped. -/
theorem links_mentioned_amended (m : MessageData) :
    (∀ link ∈ m.linksMentioned, ∀ c ∈ link.data, linkChar c = true) ∧
    (m.isMessage = false → m.linksMentioned = []) ∧
    (mkMsg "<http://a.co|A> <http://b.co>" "U1").linksMentioned =
      ["http://a.co", "http://b.co"] ∧
    (mkMsg "<@U77> and <http://x.co>" "U1").linksMentioned = ["http://x.co"] := by
  refine ⟨?_, ?_, by decide, by decide⟩
  · intro link hlink c hc
    unfold MessageData.linksMentioned at hlink
    by_cases hm : m.isMessage = true
    · rw [if_pos hm] at hlink
      obtain ⟨x, hxmem, hxeq⟩ := List.mem_map.mp hlink
      have : c ∈ x := by
        rw [← hxeq] at hc
        exact hc
      exact scanLinksGo_linkChar _ _ x hxmem c this
    · rw [if_neg hm] at hlink
      simp at hlink
  · intro hm
    unfold MessageData.linksMentioned
    simp [hm]

/-- C8 witness: the no-banned-character conjunct applied to the first link
of the concrete two-link message. -/
theorem links_mentioned_witness :
    linkChar 'h' = true :=
  (links_mentioned_amended (mkMsg "<http://a.co|A> <http://b.co>" "U1")).1
    "http://a.co" (by decide) 'h' (by decide)

/-- C9 (confirmed): on a non-empty array, `_processInput` returns the
(string-wrapped) element at index `⌊q·n⌋` — always an element of the given
array, never a value outside it — and that index equals `i` exactly when
the uniform draw `q` falls in `[i/n, (i+1)/n)`, an interval of equal length
`1/n` for each of the `n` candidates; a plain string, given directly or
selected, is wrapped as `{text: s}`; an object or `undefined` passes
through unchanged. -/
theorem process_input_normalization (α : Type) :
    (∀ (q : ℚ) (xs : List (SayInput α)), 0 ≤ q → q < 1 → xs ≠ [] →
      ∃ i, ∃ h : i < xs.length,
        processInput q (SayInput.arr xs) = wrapString (xs.get ⟨i, h⟩)) ∧
    (∀ (q : ℚ) (n i : Nat), 0 < n → 0 ≤ q → q < 1 →
      (jsArrayIndex q n = i ↔ ((i : ℚ)) / (n : ℚ) ≤ q ∧ q < ((i : ℚ) + 1) / (n : ℚ))) ∧
    (∀ (q : ℚ) (s : String),
      processInput q (SayInput.str s : SayInput α) =
        SayInput.obj ⟨some s, none, none, none⟩) ∧
    (∀ (q : ℚ) (p : PostPayload α), processInput q (SayInput.obj p) = SayInput.obj p) ∧
    (∀ q : ℚ, processInput q (SayInput.undef : SayInput α) = SayInput.undef) := by
  refine ⟨?_, ?_, fun _ _ => rfl, fun _ _ => rfl, fun _ => rfl⟩
  · intro q xs hq0 hq1 hne
    have hn : 0 < xs.length := List.length_pos.mpr hne
    have hn' : (0 : ℚ) < (xs.length : ℚ) := by exact_mod_cast hn
    have hidx : jsArrayIndex q xs.length < xs.length := by
      unfold jsArrayIndex
      rw [Nat.floor_lt (mul_nonneg hq0 (le_of_lt hn'))]
      calc q * (xs.length : ℚ) < 1 * (xs.length : ℚ) := by
            exact mul_lt_mul_of_pos_right hq1 hn'
        _ = (xs.length : ℚ) := one_mul _
    refine ⟨jsArrayIndex q xs.length, hidx, ?_⟩
    show wrapString ((xs.get? (jsArrayIndex q xs.length)).getD SayInput.undef) = _
    rw [List.get?_eq_get hidx]
    rfl
  · intro q n i hn hq0 hq1
    have hn' : (0 : ℚ) < (n : ℚ) := by exact_mod_cast hn
    unfold jsArrayIndex
    rw [Nat.floor_eq_iff (mul_nonneg hq0 (le_of_lt hn')), div_le_iff₀ hn', lt_div_iff₀ hn']

/-- C9 witness: the in-array selection at `q = 1/2` on a two-candidate
array, and the index-interval characterization showing the draw `1/2`
selects index 1 of 2. -/
theorem process_input_witness :
    (∃ i, ∃ h : i < ([SayInput.str "a", SayInput.str "b"] : List (SayInput Nat)).length,
      processInput (1/2 : ℚ) (SayInput.arr [SayInput.str "a", SayInput.str "b"]) =
        wrapString (([SayInput.str "a", SayInput.str "b"] : List (SayInput Nat)).get ⟨i, h⟩)) ∧
    (jsArrayIndex (1/2 : ℚ) 2 = 1 ↔
      (((1 : Nat) : ℚ)) / ((2 : Nat) : ℚ) ≤ (1/2 : ℚ) ∧
        (1/2 : ℚ) < (((1 : Nat) : ℚ) + 1) / ((2 : Nat) : ℚ)) :=
  ⟨(process_input_normalization Nat).1 (1/2) [SayInput.str "a", SayInput.str "b"]
      (by norm_num) (by norm_num) (by simp),
   (process_input_normalization Nat).2.1 (1/2) 2 1 (by norm_num) (by norm_num) (by norm_num)⟩

/-- C10 (confirmed): the payload posted by `say` always carries
`channel = meta.channel_id` and `token = meta.bot_token || meta.app_token`
— for every input, including normalized inputs that themselves carry
`channel` or `token` fields, the meta-derived values overwrite them rather
than acting as defaults — while the input's other fields (`text` and the
opaque rest) pass through unchanged. -/
theorem say_meta_overrides (α : Type) (m : MessageData) (q : ℚ) (input : SayInput α) :
    (m.say q input).channel = some m.meta.channel_id ∧
    (m.say q input).token = jsOr m.meta.bot_token m.meta.app_token ∧
    (∀ b, m.meta.bot_token = some b → b ≠ "" → (m.say q input).token = some b) ∧
    (m.meta.bot_token = none → (m.say q input).token = m.meta.app_token) ∧
    (∀ p, processInput q input = SayInput.obj p →
      (m.say q input).text = p.text ∧ (m.say q input).rest = p.rest) := by
  refine ⟨rfl, rfl, ?_, ?_, ?_⟩
  · intro b hb hne
    show jsOr m.meta.bot_token m.meta.app_token = some b
    rw [hb]
    simp [jsOr, hne]
  · intro hb
    show jsOr m.meta.bot_token m.meta.app_token = m.meta.app_token
    rw [hb]
    rfl
  · intro p hp
    unfold MessageData.say
    rw [hp]
    exact ⟨rfl, rfl⟩

/-- C10 witness: the meta of `msgTok` overwrites an adversarial input
payload that carries its own `channel` and `token`. -/
theorem say_meta_overrides_witness :
    (msgTok.say (0 : ℚ)
        (SayInput.obj (⟨some "t", some "EVILCH", some "EVILTOK", none⟩ : PostPayload Nat))).channel =
      some "C1" ∧
    (msgTok.say (0 : ℚ)
        (SayInput.obj (⟨some "t", some "EVILCH", some "EVILTOK", none⟩ : PostPayload Nat))).token =
      some "BTOK" ∧
    (msgTok.say (0 : ℚ)
        (SayInput.obj (⟨some "t", some "EVILCH", some "EVILTOK", none⟩ : PostPayload Nat))).text =
      some "t" ∧
    (msgTok.say (0 : ℚ)
        (SayInput.obj (⟨some "t", some "EVILCH", some "EVILTOK", none⟩ : PostPayload Nat))).rest =
      none := by
  obtain ⟨h₁, h₂, h₃, h₄, h₅⟩ :=
    say_meta_overrides Nat msgTok 0
      (SayInput.obj (⟨some "t", some "EVILCH", some "EVILTOK", none⟩ : PostPayload Nat))
  exact ⟨h₁, h₃ "BTOK" rfl (by decide), (h₅ _ rfl).1, (h₅ _ rfl).2⟩

end BoltMsg
